import Mathlib

/-!
Verification of the secure-aggregation federated-learning core:
a shallow embedding in Lean 4 of `backend/fl_server/server.py`
(`SecureAggregationStrategy`), `backend/encryption_service.py`
(`get_context` / `get_public_context`) and `fl-node/src/client.py`
(`EncryptedClient.fit`), together with theorems settling the
specification's claims about them.

Modelling conventions:
* Python floats are modelled as exact rationals (`ℚ`); "within
  floating-point/encryption-noise tolerance" becomes exact equality.
* A CKKS ciphertext is modelled by the plaintext vector it decrypts to
  under the server context; the homomorphic operations used by the code
  (ciphertext + ciphertext, ciphertext * plain scalar, ciphertext /
  plain scalar) act on that plaintext, which is exactly the CKKS
  semantics up to encryption noise.
* Side effects (file writes, database inserts) are returned as explicit
  effect lists; raised exceptions become `Except` errors.
-/

/-! ### Outlier detection (`SecureAggregationStrategy.detect_outliers`)

The source collects `losses = [fit_res.metrics["loss"] for _, fit_res in
results if "loss" in fit_res.metrics]`, returns `[]` when `len(losses) <
2` or `np.std(losses) == 0`, computes `z_scores =
np.abs(stats.zscore(losses))` (population standard deviation, `ddof=0`)
and returns `[results[i][0] for i in outlier_indices]` for the indices
with `z > 2.5`.
-/

/-- Mean of the reported losses, as computed by `np.mean` inside
`scipy.stats.zscore` (division by the length; `0` for the empty list,
never reached by the guarded code path). -/
def lossMean (losses : List ℚ) : ℚ := losses.sum / losses.length

/-- Population variance of the losses: `np.std(losses) ** 2` with numpy
default `ddof = 0`, the same normalization `scipy.stats.zscore` uses. -/
def lossVar (losses : List ℚ) : ℚ :=
  (losses.map (fun x => (x - lossMean losses) ^ 2)).sum / losses.length

/-- The source flags a loss `x` when `|x - mean| / std > 2.5` with
`std = sqrt (lossVar losses)`.  The branch is only reached when
`std ≠ 0`, where this is equivalent to the squared comparison
`4 * (x - mean)^2 > 25 * var` (see `isZOutlier_iff_zscore`), which keeps
the definition inside `ℚ` and executable. -/
def isZOutlier (losses : List ℚ) (x : ℚ) : Bool :=
  25 * lossVar losses < 4 * (x - lossMean losses) ^ 2

/-- Indices `i` of `losses` whose z-score exceeds the threshold:
`outlier_indices = [i for i, z in enumerate(z_scores) if z > threshold]`. -/
def outlierIndices (losses : List ℚ) : List ℕ :=
  (List.range losses.length).filter (fun i => isZOutlier losses (losses.getD i 0))

/-- Metrics map of a fit result.  The Python dict can carry a plaintext
training loss under key `"loss"` (read by the outlier detector) and an
error tag under key `"error"` (set by the client's exception fallback);
absence of a key is `none`. -/
structure FitMetrics where
  loss : Option ℚ
  error : Option String
deriving DecidableEq, Inhabited

/-- A CKKS ciphertext, identified in the exact (noise-free) model by the
plaintext vector it decrypts to under the server context.  The server
obtains it with `ts.ckks_vector_from(context, tensor)`; serialization is
modelled as the identity. -/
structure CKKSVector where
  values : List ℚ
deriving DecidableEq, Inhabited

/-- Server-side view of one client's `FitRes`: the encrypted flattened
parameter tensors, the reported example count and the metrics map. -/
structure FitRes where
  tensors : List CKKSVector
  numExamples : ℕ
  metrics : FitMetrics
deriving DecidableEq, Inhabited

/-- Flower client proxies are modelled by a numeric client identifier. -/
abbrev ClientId := ℕ

/-- The list comprehension collecting the reported losses, skipping
results whose metrics have no `"loss"` key. -/
def reportedLosses (results : List (ClientId × FitRes)) : List ℚ :=
  results.filterMap (fun r => r.2.metrics.loss)

/-- `SecureAggregationStrategy.detect_outliers`: returns the client
proxies `results[i][0]` at the outlier indices, or `[]` when fewer than
two losses were reported or their standard deviation is zero. -/
def detect_outliers (results : List (ClientId × FitRes)) : List ClientId :=
  let losses := reportedLosses results
  if losses.length < 2 then []
  else if lossVar losses = 0 then []
  else (outlierIndices losses).map (fun i => (results.getD i default).1)

/-! Bridge between the executable squared comparison and the source's
literal `|x - mean| / sqrt var > 2.5` over the reals. -/

/-- Over the reals, with a positive variance, the strict z-score
comparison against `5/2` is the squared comparison. -/
theorem abs_div_sqrt_gt_iff (x v : ℝ) (hv : 0 < v) :
    (5 / 2 : ℝ) < |x| / Real.sqrt v ↔ 25 * v < 4 * x ^ 2 := by
  rw [lt_div_iff₀ (Real.sqrt_pos.mpr hv)]
  constructor
  · intro h
    have h0 : (0 : ℝ) ≤ 5 / 2 * Real.sqrt v := by positivity
    have hsq := mul_self_lt_mul_self h0 h
    have hv2 : Real.sqrt v * Real.sqrt v = v := Real.mul_self_sqrt hv.le
    have habs : |x| * |x| = x ^ 2 := by
      rw [← abs_mul, abs_mul_self, sq]
    nlinarith [hsq, hv2, habs]
  · intro h
    have h0 : (0 : ℝ) ≤ 5 / 2 * Real.sqrt v := by positivity
    have hv2 : Real.sqrt v * Real.sqrt v = v := Real.mul_self_sqrt hv.le
    have habs : |x| * |x| = x ^ 2 := by
      rw [← abs_mul, abs_mul_self, sq]
    by_contra hle
    push_neg at hle
    have := mul_self_le_mul_self (abs_nonneg x) hle
    nlinarith [this, hv2, habs]

/-- The executable outlier test agrees with the source's real-valued
z-score comparison whenever the (positive-variance) branch is reached. -/
theorem isZOutlier_iff_zscore (losses : List ℚ) (x : ℚ)
    (hv : 0 < lossVar losses) :
    isZOutlier losses x = true ↔
      (5 / 2 : ℝ) <
        |((x : ℝ) - (lossMean losses : ℚ))| /
          Real.sqrt ((lossVar losses : ℚ)) := by
  have hv' : (0 : ℝ) < ((lossVar losses : ℚ) : ℝ) := by exact_mod_cast hv
  rw [abs_div_sqrt_gt_iff _ _ hv']
  unfold isZOutlier
  rw [decide_eq_true_eq]
  constructor
  · intro h
    exact_mod_cast h
  · intro h
    exact_mod_cast h

/-! ### Homomorphic operations used by `aggregate_fit`

TenSEAL's CKKS vectors support ciphertext-plain scalar multiplication
(`w * num_examples`), ciphertext addition (`a + b`, positionwise over
vectors of equal length) and scalar division (`w / total_examples`,
multiplication by the plain reciprocal, undefined for a zero divisor).
-/

/-- Ciphertext-scalar multiplication `w * k`. -/
def CKKSVector.scalarMul (w : CKKSVector) (k : ℚ) : CKKSVector :=
  ⟨w.values.map (fun x => x * k)⟩

/-- Homomorphic ciphertext addition `a + b` (positionwise). -/
def CKKSVector.add (a b : CKKSVector) : CKKSVector :=
  ⟨List.zipWith (fun x y => x + y) a.values b.values⟩

/-- Homomorphic scalar division `w / k` (multiplication by the plain
reciprocal `1 / k`; the caller must ensure `k ≠ 0`). -/
def CKKSVector.scalarDiv (w : CKKSVector) (k : ℚ) : CKKSVector :=
  ⟨w.values.map (fun x => x / k)⟩

/-- Decryption of the final aggregate: `np.array(w.decrypt())`. -/
def CKKSVector.decrypt (w : CKKSVector) : List ℚ := w.values

/-! ### `SecureAggregationStrategy.aggregate_fit` -/

/-- Side effects of `aggregate_fit`, in the order the source performs
them in the final round: `torch.save` of the aggregated state dict,
the two DVC bookkeeping files, and the `ModelVersion` database record
with `version_number=server_round`. -/
inductive AggEffect where
  | saveWeights (round : ℕ)
  | writeDvcMetrics (round : ℕ)
  | writeDvcParams
  | createModelVersion (versionNumber : ℕ)
deriving DecidableEq

/-- Exceptions that can escape `aggregate_fit`, both unguarded in the
source: the `AttributeError` from `f.client_proxy` in the
failure-logging block (a `BaseException` carries no such attribute),
and the division of the encrypted accumulator by `total_examples = 0`. -/
inductive AggError where
  | attributeError
  | divisionByZero
deriving DecidableEq

/-- A client failure as Flower hands it to the strategy — a
`BaseException`, per the source's own docstring — modelled by its
message.  Such an object has no `client_proxy` (and no `reason`)
attribute. -/
abbrev BaseException := String

/-- Result of a completed `aggregate_fit` call: the returned parameters
(`none` models Python `None`) together with the emitted side effects. -/
structure AggOutput where
  params : Option (List (List ℚ))
  effects : List AggEffect
deriving DecidableEq

/-- The filtering loop of `aggregate_fit`: keep the results whose client
proxy is not in the `detect_outliers` list. -/
def filtered_results (results : List (ClientId × FitRes)) :
    List (ClientId × FitRes) :=
  results.filter (fun r => decide (r.1 ∉ detect_outliers results))

/-- `total_examples = sum([fit_res.num_examples for _, fit_res in
filtered_results])`. -/
def total_examples (rs : List (ClientId × FitRes)) : ℕ :=
  (rs.map (fun r => r.2.numExamples)).sum

/-- One step of the accumulation loop: `aggregated_weights_encrypted[j]
+= client_encrypted_weights[j] * client_num_examples` for every index
`j`. -/
def accStep (acc : List CKKSVector) (r : ClientId × FitRes) :
    List CKKSVector :=
  List.zipWith (fun a w => a.add (w.scalarMul r.2.numExamples))
    acc r.2.tensors

/-- The weighted-sum accumulator: initialized from the first valid
client's tensors scaled by its example count, then folded over the
remaining clients in arrival order. -/
def accumulate : List (ClientId × FitRes) → List CKKSVector
  | [] => []
  | first :: rest =>
      rest.foldl accStep
        (first.2.tensors.map (fun w => w.scalarMul first.2.numExamples))

/-- `SecureAggregationStrategy.aggregate_fit server_round results
failures` (for a strategy configured with `num_rounds` total rounds).
Mirrors the source line by line.  Empty `results` returns `None` with no
side effects.  Otherwise the failure-logging block runs: `if failures:`
iterates `for client_proxy, fit_res in results` and tests `client_proxy
in [f.client_proxy for f in failures]` — the comprehension evaluates
`f.client_proxy` on a `BaseException`, which has no such attribute, so
with `results` non-empty any non-empty `failures` list raises an
unguarded `AttributeError` before outlier filtering.  With no failures,
empty post-filter results return `None`; otherwise the encrypted
accumulator is built, divided by `total_examples` (raising a
division-by-zero error when that sum is `0`), decrypted, and in the
final round the weights file, DVC files and `ModelVersion` record are
written. -/
def aggregate_fit (server_round num_rounds : ℕ)
    (results : List (ClientId × FitRes)) (failures : List BaseException) :
    Except AggError AggOutput :=
  if results.isEmpty then .ok ⟨none, []⟩
  else if (failures.isEmpty = false) then .error .attributeError
  else
    let fr := filtered_results results
    if fr.isEmpty then .ok ⟨none, []⟩
    else
      let total := total_examples fr
      let acc := accumulate fr
      if total = 0 then .error .divisionByZero
      else
        let averaged := acc.map (fun w => w.scalarDiv total)
        let aggregated := averaged.map CKKSVector.decrypt
        let effects :=
          if server_round = num_rounds then
            [AggEffect.saveWeights server_round,
             AggEffect.writeDvcMetrics server_round,
             AggEffect.writeDvcParams,
             AggEffect.createModelVersion server_round]
          else []
        .ok ⟨some aggregated, effects⟩

/-- The parameters an `aggregate_fit` call hands back to Flower
(`none` both for an aborted round and for a raised exception). -/
def agg_params (r : Except AggError AggOutput) : Option (List (List ℚ)) :=
  match r with
  | .ok o => o.params
  | .error _ => none

/-- The side effects an `aggregate_fit` call performed (an exception —
the failure-logging `AttributeError` or the division by zero — happens
before the final-round block, so none). -/
def agg_effects (r : Except AggError AggOutput) : List AggEffect :=
  match r with
  | .ok o => o.effects
  | .error _ => []

/-- The version numbers of the `ModelVersion` records created. -/
def modelVersionsCreated (es : List AggEffect) : List ℕ :=
  es.filterMap (fun e =>
    match e with
    | .createModelVersion v => some v
    | _ => none)

/-- The rounds for which a weights file was written. -/
def weightsFilesWritten (es : List AggEffect) : List ℕ :=
  es.filterMap (fun e =>
    match e with
    | .saveWeights r => some r
    | _ => none)

/-! ### Pointwise view of the tensors -/

/-- Shape of an encrypted parameter vector: the length of each
ciphertext slot vector. -/
def shape (ws : List CKKSVector) : List ℕ :=
  ws.map (fun w => w.values.length)

/-- Entry of tensor `t` at position `p`, with `0` outside the range (the
hypotheses of the theorems keep all relevant accesses in range). -/
def entry (ws : List CKKSVector) (t p : ℕ) : ℚ :=
  ((ws.getD t ⟨[]⟩).values).getD p 0

/-- Entry of a decrypted (plain) tensor list. -/
def plainEntry (xss : List (List ℚ)) (t p : ℕ) : ℚ :=
  (xss.getD t []).getD p 0

/-- The example-count-weighted mean of the clients' plaintext weight
vectors, computed entirely in plaintext, following the specification's
words: at tensor `t`, position `p`, the value is
`(sum_i n_i * w_i) / (sum_i n_i)`; the tensor layout is that of the
first client. -/
def plainWeightedMean (fr : List (ClientId × FitRes)) : List (List ℚ) :=
  match fr with
  | [] => []
  | first :: _ =>
      (List.range first.2.tensors.length).map (fun t =>
        (List.range ((first.2.tensors.getD t ⟨[]⟩).values.length)).map
          (fun p =>
            (fr.map (fun r =>
              (r.2.numExamples : ℚ) * entry r.2.tensors t p)).sum /
              (total_examples fr : ℚ)))

/-! ### `EncryptedClient.fit` (`fl-node/src/client.py`)

On success the client returns
`fl.common.Parameters(tensors=encrypted_weights,
tensor_type="encrypted_ckks"), len(self.trainloader.dataset), {}` —
note the empty metrics dict — after logging the last batch loss only to
MLflow (`mlflow.log_metric("train_loss", loss.item())`).  On any
exception it returns `self.get_parameters({}), 0, {"error": str(e)}`,
where `get_parameters` is the plaintext NumPy state dict.
-/

/-- The parameter payload of a fit reply: either flattened tensors CKKS
encrypted under a context (`tensor_type="encrypted_ckks"`) or plaintext
NumPy arrays (the format of `get_parameters`). -/
inductive ParamPayload where
  | encrypted (ctxId : ℕ) (tensors : List (List ℚ))
  | plaintextNd (tensors : List (List ℚ))
deriving DecidableEq

/-- Whether a payload consists of homomorphically encrypted tensors. -/
def ParamPayload.isEncrypted : ParamPayload → Bool
  | .encrypted _ _ => true
  | .plaintextNd _ => false

/-- The triple `EncryptedClient.fit` returns to the server. -/
structure FitReply where
  payload : ParamPayload
  numExamples : ℕ
  metrics : FitMetrics
deriving DecidableEq

/-- Outcome of the training body inside the `try` of `fit`: either the
final state dict (flattened tensors), the training-set size and the last
batch's loss, or the exception message. -/
inductive TrainOutcome where
  | success (weights : List (List ℚ)) (nExamples : ℕ) (finalLoss : ℚ)
  | failure (msg : String)
deriving DecidableEq

/-- `EncryptedClient.fit`.  `currentParams` is the model's state dict at
the time of the exception (what `self.get_parameters({})` returns),
`ctxId` the key-pair identity of `self.public_context`.  Besides the
reply, the list of `(name, value)` metrics logged to MLflow is
returned — the training loss goes only there, never into the reply's
metrics dict. -/
def client_fit (currentParams : List (List ℚ)) (ctxId : ℕ)
    (outcome : TrainOutcome) : FitReply × List (String × ℚ) :=
  match outcome with
  | .success w n loss =>
      (⟨.encrypted ctxId w, n, ⟨none, none⟩⟩, [("train_loss", loss)])
  | .failure msg =>
      (⟨.plaintextNd currentParams, 0, ⟨none, some msg⟩⟩, [])

/-! ### Encryption context (`backend/encryption_service.py`)

`get_context()` calls `ts.context(ts.SCHEME_TYPE.CKKS,
poly_modulus_degree=8192, coeff_mod_bit_sizes=[60, 40, 40, 60])`, which
generates a fresh random key pair on every call (the source comment:
"For this demonstration, a new one is generated on demand"), then
generates Galois keys and sets `global_scale = 2**40`.  The embedding
threads an explicit entropy counter; each call consumes one draw, which
becomes the identity of the freshly sampled key pair.
-/

/-- A TenSEAL context: the fixed CKKS parameters plus the identity of
the key pair sampled at creation. -/
structure TSContext where
  scheme : String
  polyModulusDegree : ℕ
  coeffModBitSizes : List ℕ
  globalScale : ℕ
  galoisKeys : Bool
  keyPairId : ℕ
deriving DecidableEq

/-- The public material `context.serialize()` emits (the default
`save_secret_key=False`): the parameters and the public half of the key
pair, identified by the key pair it belongs to. -/
structure PublicContext where
  scheme : String
  polyModulusDegree : ℕ
  coeffModBitSizes : List ℕ
  globalScale : ℕ
  publicKeyOf : ℕ
deriving DecidableEq

/-- `get_context()`: build the CKKS context with the fixed parameters
and a freshly generated key pair. -/
def get_context (entropy : ℕ) : TSContext × ℕ :=
  (⟨"CKKS", 8192, [60, 40, 40, 60], 2 ^ 40, true, entropy⟩, entropy + 1)

/-- `context.serialize()` restricted to public material. -/
def serialize_public (c : TSContext) : PublicContext :=
  ⟨c.scheme, c.polyModulusDegree, c.coeffModBitSizes, c.globalScale,
    c.keyPairId⟩

/-- `get_public_context()`: creates a context of its own and serializes
its public part. -/
def get_public_context (entropy : ℕ) : PublicContext × ℕ :=
  let s := get_context entropy
  (serialize_public s.1, s.2)

/-- The module-level `context = get_context()` evaluated when
`backend/fl_server/server.py` is imported, consuming the process's
first entropy draw; `aggregate_fit` decrypts with this context. -/
def server_context : TSContext := (get_context 0).1

/-- The body the `/api/v1/fl/context` endpoint
(`backend/api/fl.py`) serves to clients after the server module was
initialized: `encryption_service.get_public_context()` on the next
entropy draw. -/
def served_public_context : PublicContext :=
  (get_public_context (get_context 0).2).1

/-! ### `SecureAggregationStrategy.aggregate_evaluate`

The source delegates the numeric aggregation to
`super().aggregate_evaluate(...)` (Flower library code, outside this
repository), then builds `FLRoundMetric(round_number=server_round,
avg_accuracy=aggregated_metrics.get("accuracy"),
avg_loss=aggregated_loss, num_clients=len(results))` — the
`avg_uncertainty` column of the table is not passed and stays at its
NULL default — and commits it.
-/

/-- One client's `EvaluateRes`: plaintext loss, example count and the
metrics dict the client's `evaluate` returns
(`accuracy` and `avg_uncertainty`). -/
structure EvaluateRes where
  loss : ℚ
  numExamples : ℕ
  accuracy : Option ℚ
  avgUncertainty : Option ℚ
deriving DecidableEq

/-- The aggregates returned by the Flower superclass call (third-party
code): the weighted loss and the aggregated metrics dict, from which the
source reads only the `"accuracy"` key. -/
structure SuperEvalAggregate where
  loss : Option ℚ
  accuracy : Option ℚ
  avgUncertainty : Option ℚ
deriving DecidableEq

/-- A row of the `fl_round_metrics` table
(`backend/models/fl_metrics.py`): nullable columns are `Option`. -/
structure FLRoundMetricRow where
  round_number : ℕ
  avg_accuracy : Option ℚ
  avg_loss : Option ℚ
  num_clients : ℕ
  avg_uncertainty : Option ℚ
deriving DecidableEq, Inhabited

/-- `SecureAggregationStrategy.aggregate_evaluate`: returns the
superclass aggregates unchanged and persists exactly the row the source
constructs.  `superAgg` stands for the value of
`super().aggregate_evaluate(server_round, results, failures)`. -/
def aggregate_evaluate (server_round : ℕ)
    (results : List (ClientId × EvaluateRes))
    (superAgg : SuperEvalAggregate) :
    (Option ℚ × SuperEvalAggregate) × List FLRoundMetricRow :=
  ((superAgg.loss, superAgg),
    [{ round_number := server_round
       avg_accuracy := superAgg.accuracy
       avg_loss := superAgg.loss
       num_clients := results.length
       avg_uncertainty := none }])

/-! ### Concrete inputs used by the claim theorems -/

/-- Four clients with the losses of the specification's outlier example
`[0.1, 0.12, 0.15, 10.0]`. -/
def specLossExample : List (ClientId × FitRes) :=
  [(0, ⟨[], 1, ⟨some (1 / 10), none⟩⟩),
   (1, ⟨[], 1, ⟨some (12 / 100), none⟩⟩),
   (2, ⟨[], 1, ⟨some (15 / 100), none⟩⟩),
   (3, ⟨[], 1, ⟨some 10, none⟩⟩)]

/-- Three clients with the zero-variance losses `[0.5, 0.5, 0.5]`. -/
def zeroVarExample : List (ClientId × FitRes) :=
  [(0, ⟨[], 1, ⟨some (1 / 2), none⟩⟩),
   (1, ⟨[], 1, ⟨some (1 / 2), none⟩⟩),
   (2, ⟨[], 1, ⟨some (1 / 2), none⟩⟩)]

/-- A single-entry result list. -/
def singleLossExample : List (ClientId × FitRes) :=
  [(0, ⟨[], 1, ⟨some (1 / 10), none⟩⟩)]

/-- Eight clients reporting losses `[0,0,0,0,0,0,0,1]`: the population
z-score of the last loss is `sqrt 7 > 2.5`. -/
def eightLossExample : List (ClientId × FitRes) :=
  [(0, ⟨[], 1, ⟨some 0, none⟩⟩), (1, ⟨[], 1, ⟨some 0, none⟩⟩),
   (2, ⟨[], 1, ⟨some 0, none⟩⟩), (3, ⟨[], 1, ⟨some 0, none⟩⟩),
   (4, ⟨[], 1, ⟨some 0, none⟩⟩), (5, ⟨[], 1, ⟨some 0, none⟩⟩),
   (6, ⟨[], 1, ⟨some 0, none⟩⟩), (7, ⟨[], 1, ⟨some 1, none⟩⟩)]

/-- The same loss pattern on distinct client identifiers, used to
instantiate the outlier-detector contract. -/
def eightLossExampleB : List (ClientId × FitRes) :=
  [(10, ⟨[], 1, ⟨some 0, none⟩⟩), (11, ⟨[], 1, ⟨some 0, none⟩⟩),
   (12, ⟨[], 1, ⟨some 0, none⟩⟩), (13, ⟨[], 1, ⟨some 0, none⟩⟩),
   (14, ⟨[], 1, ⟨some 0, none⟩⟩), (15, ⟨[], 1, ⟨some 0, none⟩⟩),
   (16, ⟨[], 1, ⟨some 0, none⟩⟩), (17, ⟨[], 1, ⟨some 1, none⟩⟩)]

/-- Two clients with aligned two-tensor updates: example counts `1` and
`3`, weighted mean `[[4, 5], [6]]`. -/
def twoClientExample : List (ClientId × FitRes) :=
  [(0, ⟨[⟨[1, 2]⟩, ⟨[3]⟩], 1, ⟨none, none⟩⟩),
   (1, ⟨[⟨[5, 6]⟩, ⟨[7]⟩], 3, ⟨none, none⟩⟩)]

/-- Two surviving clients that both report `num_examples = 0` (the
client failure fallback), with well-formed ciphertexts. -/
def zeroExamplesExample : List (ClientId × FitRes) :=
  [(0, ⟨[⟨[1]⟩], 0, ⟨none, some "fail"⟩⟩),
   (1, ⟨[⟨[2]⟩], 0, ⟨none, some "fail"⟩⟩)]

/-- Two clients' evaluation results carrying accuracy and uncertainty. -/
def evalExample : List (ClientId × EvaluateRes) :=
  [(0, ⟨1 / 2, 10, some (8 / 10), some (1 / 10)⟩),
   (1, ⟨3 / 4, 5, some (1 / 2), some (2 / 10)⟩)]

/-! ### Claims about the encryption context (C2) -/

/-- C2: refuted — the two `get_context()` calls of a server process (the
module-level aggregation context of `server.py` and the one serialized
by `get_public_context` for the `/context` endpoint) agree on every
CKKS parameter but generate distinct key pairs, so clients encrypt
under a public key whose secret counterpart the aggregating server does
not hold. -/
theorem get_context_fresh_keypair :
    server_context.scheme = served_public_context.scheme ∧
    server_context.polyModulusDegree = served_public_context.polyModulusDegree ∧
    server_context.coeffModBitSizes = served_public_context.coeffModBitSizes ∧
    server_context.globalScale = served_public_context.globalScale ∧
    server_context.keyPairId ≠ served_public_context.publicKeyOf := by
  refine ⟨rfl, rfl, rfl, rfl, ?_⟩
  simp [server_context, served_public_context, get_context,
    get_public_context, serialize_public]

/-! ### Claims about the client's fit reply (C3, C4) -/

/-- C3: refuted by the code — a successful `EncryptedClient.fit` returns
the empty metrics dict `{}` (the training loss goes only to MLflow), so
the reply carries no `"loss"` key; consequently the server's
`detect_outliers`, which reads `fit_res.metrics["loss"]`, collects no
losses at all from such replies and never flags anyone. -/
theorem client_fit_metrics_missing_loss :
    (∀ (currentParams : List (List ℚ)) (ctxId : ℕ)
        (w : List (List ℚ)) (n : ℕ) (loss : ℚ),
      (client_fit currentParams ctxId (.success w n loss)).1.metrics =
        ⟨none, none⟩ ∧
      (client_fit currentParams ctxId (.success w n loss)).2 =
        [("train_loss", loss)]) ∧
    (∀ results : List (ClientId × FitRes),
      (∀ r ∈ results, r.2.metrics.loss = none) →
      detect_outliers results = []) := by
  constructor
  · intro currentParams ctxId w n loss
    exact ⟨rfl, rfl⟩
  · intro results h
    have hlosses : reportedLosses results = [] := by
      unfold reportedLosses
      rw [List.filterMap_eq_nil_iff]
      intro r hr
      exact h r hr
    unfold detect_outliers
    simp [hlosses]

/-- Witness for C3: two replies with empty metrics dicts (as `fit`
produces) yield no reported losses, so the outlier detector returns the
empty list. -/
theorem client_fit_metrics_missing_loss_witness :
    detect_outliers
      [(0, ⟨[], 5, ⟨none, none⟩⟩), (1, ⟨[], 3, ⟨none, some "oom"⟩⟩)] = [] :=
  client_fit_metrics_missing_loss.2 _ (by
    intro r hr
    simp only [List.mem_cons, List.mem_singleton] at hr
    rcases hr with h | h | h
    · rw [h]
    · rw [h]
    · cases h)

/-- C4 counterexample: on the exception path `fit` returns
`self.get_parameters({})` — the current plaintext state dict — so the
parameters handed to the server are not ciphertexts. -/
theorem client_fit_fallback_plaintext_cex :
    (client_fit [[1, 2]] 0 (.failure "training failed")).1.payload =
      .plaintextNd [[1, 2]] ∧
    ((client_fit [[1, 2]] 0
        (.failure "training failed")).1.payload.isEncrypted = false) :=
  ⟨rfl, rfl⟩

/-- C4 as amended: on the successful path the returned tensors are CKKS
ciphertexts under the client's public context
(`tensor_type="encrypted_ckks"`); on the exception path the client
instead returns its current model parameters in plaintext, with zero
examples and an error-tagged metrics dict. -/
theorem client_fit_payload_paths (currentParams : List (List ℚ)) (ctxId : ℕ) :
    (∀ (w : List (List ℚ)) (n : ℕ) (loss : ℚ),
      (client_fit currentParams ctxId (.success w n loss)).1.payload =
        .encrypted ctxId w ∧
      (client_fit currentParams ctxId
        (.success w n loss)).1.payload.isEncrypted = true) ∧
    (∀ msg : String,
      (client_fit currentParams ctxId (.failure msg)).1 =
        ⟨.plaintextNd currentParams, 0, ⟨none, some msg⟩⟩) := by
  exact ⟨fun w n loss => ⟨rfl, rfl⟩, fun msg => rfl⟩

/-! ### Round abort without exception (C6) -/

/-- Eight results submitted by the same client proxy, whose losses make
that proxy an outlier: filtering then removes every update. -/
def allFlaggedExample : List (ClientId × FitRes) :=
  [(0, ⟨[], 1, ⟨some 0, none⟩⟩), (0, ⟨[], 1, ⟨some 0, none⟩⟩),
   (0, ⟨[], 1, ⟨some 0, none⟩⟩), (0, ⟨[], 1, ⟨some 0, none⟩⟩),
   (0, ⟨[], 1, ⟨some 0, none⟩⟩), (0, ⟨[], 1, ⟨some 0, none⟩⟩),
   (0, ⟨[], 1, ⟨some 0, none⟩⟩), (0, ⟨[], 1, ⟨some 1, none⟩⟩)]

/-- C6 counterexample: a non-empty result list after which zero updates
remain post-filtering, delivered together with one client failure —
the claim demands a clean null return, but the failure-logging block
raises the unguarded `AttributeError` (`f.client_proxy` on a
`BaseException`) before filtering even runs. -/
theorem aggregate_fit_failures_raise_cex :
    aggregate_fit 1 3 allFlaggedExample ["client disconnected"] =
      .error .attributeError ∧
    filtered_results allFlaggedExample = [] ∧
    allFlaggedExample ≠ [] := by
  refine ⟨rfl, ?_, by simp [allFlaggedExample]⟩
  norm_num [filtered_results, allFlaggedExample, detect_outliers,
    reportedLosses, lossVar, lossMean, outlierIndices, isZOutlier,
    List.filterMap, List.filter, List.range, List.range.loop]

/-- C6 as amended: `aggregate_fit` returns Python `None` parameters
with no side effects and raises nothing exactly when the incoming
result list is empty, or no failure was reported and no update survives
outlier filtering; with non-empty results, any reported failure makes
the failure-logging block raise an unguarded `AttributeError`
(`f.client_proxy` on a `BaseException`) instead, and every remaining
path either returns actual parameters or raises the division-by-zero,
never a silent null. -/
theorem aggregate_fit_null_abort (server_round num_rounds : ℕ)
    (results : List (ClientId × FitRes)) (failures : List BaseException) :
    aggregate_fit server_round num_rounds results failures =
      .ok ⟨none, []⟩ ↔
    (results = [] ∨
      (failures = [] ∧ filtered_results results = [])) := by
  unfold aggregate_fit
  by_cases h1 : results = []
  · simp [h1]
  · by_cases hf : failures = []
    · by_cases h2 : filtered_results results = []
      · simp [h1, hf, h2]
      · by_cases h3 : total_examples (filtered_results results) = 0
        · simp [h1, hf, h2, h3]
        · simp [h1, hf, h2, h3]
    · simp [h1, hf]

/-! ### Per-round metric persistence (C8) -/

/-- C8 counterexample: an evaluation aggregation in which every client
reported an uncertainty (and the aggregated metrics carry one) still
persists a row whose `avg_uncertainty` column is NULL — the source
never passes `avg_uncertainty` to the `FLRoundMetric` constructor. -/
theorem aggregate_evaluate_no_uncertainty_cex :
    ((aggregate_evaluate 1 evalExample
        ⟨some (3 / 5), some (7 / 10), some (3 / 20)⟩).2.headD
      default).avg_uncertainty = none := rfl

/-- C8 as amended: every completed evaluation aggregation persists
exactly one `FLRoundMetric` row recording the round number, the
aggregated accuracy, the aggregated loss and the number of
participating clients, while `avg_uncertainty` is left NULL. -/
theorem aggregate_evaluate_persists_row (server_round : ℕ)
    (results : List (ClientId × EvaluateRes))
    (superAgg : SuperEvalAggregate) :
    (aggregate_evaluate server_round results superAgg).2 =
      [{ round_number := server_round
         avg_accuracy := superAgg.accuracy
         avg_loss := superAgg.loss
         num_clients := results.length
         avg_uncertainty := none }] := rfl

/-! ### Helper lemmas shared by several claims -/

/-- When no result carries a `"loss"` key (the situation the actual
client produces), the outlier detector collects no losses and returns
the empty list. -/
theorem detect_outliers_nil_of_no_losses
    (results : List (ClientId × FitRes))
    (h : ∀ r ∈ results, r.2.metrics.loss = none) :
    detect_outliers results = [] := by
  have hlosses : reportedLosses results = [] := by
    unfold reportedLosses
    rw [List.filterMap_eq_nil_iff]
    intro r hr
    exact h r hr
  unfold detect_outliers
  simp [hlosses]

/-- With no reported losses, outlier filtering keeps every result. -/
theorem filtered_results_of_no_losses
    (results : List (ClientId × FitRes))
    (h : ∀ r ∈ results, r.2.metrics.loss = none) :
    filtered_results results = results := by
  unfold filtered_results
  rw [detect_outliers_nil_of_no_losses results h]
  simp

/-- `total_examples` vanishes exactly when every surviving client
reported zero examples. -/
theorem total_examples_eq_zero_iff (rs : List (ClientId × FitRes)) :
    total_examples rs = 0 ↔ ∀ r ∈ rs, r.2.numExamples = 0 := by
  unfold total_examples
  rw [List.sum_eq_zero_iff]
  constructor
  · intro h r hr
    exact h _ (List.mem_map_of_mem _ hr)
  · intro h x hx
    obtain ⟨r, hr, rfl⟩ := List.mem_map.mp hx
    exact h r hr

/-! ### Guarded division over total examples (C9) -/

/-- C9: the division of the encrypted accumulator by `total_examples`
is unguarded — with a non-empty post-filter result list (and no
reported failures, which would raise earlier in the failure-logging
block), `aggregate_fit` raises the division-by-zero error precisely when every
surviving client reported `num_examples = 0`, which is exactly what the
client's exception fallback reports; zero-example results are not
excluded before aggregation. -/
theorem aggregate_fit_division_by_zero (server_round num_rounds : ℕ)
    (results : List (ClientId × FitRes))
    (hne : filtered_results results ≠ []) :
    (aggregate_fit server_round num_rounds results [] =
        .error .divisionByZero ↔
      ∀ r ∈ filtered_results results, r.2.numExamples = 0) ∧
    (∀ (currentParams : List (List ℚ)) (ctxId : ℕ) (msg : String),
      (client_fit currentParams ctxId (.failure msg)).1.numExamples = 0) := by
  constructor
  · have hres : results ≠ [] := by
      intro h
      exact hne (by simp [filtered_results, h])
    unfold aggregate_fit
    rw [← total_examples_eq_zero_iff]
    by_cases h3 : total_examples (filtered_results results) = 0
    · simp [hres, hne, h3]
    · simp [hres, hne, h3]
  · intro currentParams ctxId msg
    rfl

/-- Witness for C9: two surviving zero-example fallback results make
`aggregate_fit` raise the division-by-zero error. -/
theorem aggregate_fit_division_by_zero_witness :
    aggregate_fit 1 3 zeroExamplesExample [] = .error .divisionByZero := by
  have hfull : filtered_results zeroExamplesExample = zeroExamplesExample := by
    refine filtered_results_of_no_losses _ ?_
    intro r hr
    simp only [zeroExamplesExample, List.mem_cons, List.not_mem_nil,
      or_false] at hr
    rcases hr with h | h <;> subst h <;> rfl
  have hne : filtered_results zeroExamplesExample ≠ [] := by
    rw [hfull]
    intro h
    cases h
  refine (aggregate_fit_division_by_zero 1 3 zeroExamplesExample hne).1.mpr ?_
  rw [hfull]
  intro r hr
  simp only [zeroExamplesExample, List.mem_cons, List.not_mem_nil,
    or_false] at hr
  rcases hr with h | h <;> subst h <;> rfl

/-! ### Finalization frame (C7) -/

/-- C7: whenever aggregation actually runs (no reported failures, some
update survives filtering and the example total is positive), the final configured
round — and only it — writes exactly one weights file and creates
exactly one `ModelVersion` record, whose `version_number` is that round
number; non-final rounds write and create nothing. -/
theorem aggregate_fit_finalization (server_round num_rounds : ℕ)
    (results : List (ClientId × FitRes))
    (hne : filtered_results results ≠ [])
    (htot : total_examples (filtered_results results) ≠ 0) :
    modelVersionsCreated
        (agg_effects (aggregate_fit server_round num_rounds results [])) =
      (if server_round = num_rounds then [server_round] else []) ∧
    weightsFilesWritten
        (agg_effects (aggregate_fit server_round num_rounds results [])) =
      (if server_round = num_rounds then [server_round] else []) := by
  have hres : results ≠ [] := by
    intro h
    exact hne (by simp [filtered_results, h])
  unfold aggregate_fit
  by_cases hfin : server_round = num_rounds
  · simp [hres, hne, htot, hfin, agg_effects, modelVersionsCreated,
      weightsFilesWritten]
  · simp [hres, hne, htot, hfin, agg_effects, modelVersionsCreated,
      weightsFilesWritten]

/-- Witness for C7: on the final round of a three-round session with two
surviving clients, exactly one `ModelVersion` with version number `3`
and exactly one weights file are produced. -/
theorem aggregate_fit_finalization_witness :
    modelVersionsCreated
        (agg_effects (aggregate_fit 3 3 twoClientExample [])) = [3] ∧
    weightsFilesWritten
        (agg_effects (aggregate_fit 3 3 twoClientExample [])) = [3] := by
  have hfull : filtered_results twoClientExample = twoClientExample := by
    refine filtered_results_of_no_losses _ ?_
    intro r hr
    simp only [twoClientExample, List.mem_cons, List.not_mem_nil,
      or_false] at hr
    rcases hr with h | h <;> subst h <;> rfl
  have hne : filtered_results twoClientExample ≠ [] := by
    rw [hfull]
    intro h
    cases h
  have htot : total_examples (filtered_results twoClientExample) ≠ 0 := by
    rw [hfull]
    intro h
    cases h
  have h := aggregate_fit_finalization 3 3 twoClientExample hne htot
  simpa using h

/-! ### The population z-score bound

`scipy.stats.zscore` normalizes by the population standard deviation
(`ddof = 0`); for `n` samples the extremal deviation obeys
`n * (x_i - mean)^2 <= (n - 1) * sum_j (x_j - mean)^2`, hence every
z-score is at most `sqrt (n - 1)`.  The threshold `2.5` can therefore
only be exceeded once `n - 1 > 6.25`, i.e. with at least `8` reported
losses. -/

/-- The deviations from the mean sum to zero. -/
theorem sum_dev_eq_zero (l : List ℚ) (hl : l ≠ []) :
    ∑ j : Fin l.length, (l.get j - lossMean l) = 0 := by
  have h0 : l.length ≠ 0 := fun h => hl (List.length_eq_zero.mp h)
  have hn : (l.length : ℚ) ≠ 0 := Nat.cast_ne_zero.mpr h0
  rw [Finset.sum_sub_distrib]
  have h1 : ∑ j : Fin l.length, l.get j = l.sum := by
    simp [Fin.sum_univ_get]
  have h2 : ∑ _j : Fin l.length, lossMean l =
      (l.length : ℚ) * lossMean l := by
    rw [Finset.sum_const, Finset.card_univ, Fintype.card_fin, nsmul_eq_mul]
  rw [h1, h2, lossMean]
  field_simp

/-- The list-level sum of squared deviations as a `Fin`-indexed sum. -/
theorem sum_sq_dev_eq (l : List ℚ) :
    ∑ j : Fin l.length, (l.get j - lossMean l) ^ 2 =
      (l.map (fun x => (x - lossMean l) ^ 2)).sum := by
  simpa using Fin.sum_univ_get' l (fun x => (x - lossMean l) ^ 2)

/-- Cauchy-Schwarz bound on a single squared deviation: with the other
`n - 1` deviations summing to its negation, `n * (x_i - mean)^2` is at
most `(n - 1)` times the total sum of squared deviations. -/
theorem sq_dev_le (l : List ℚ) (i : Fin l.length) :
    (l.length : ℚ) * (l.get i - lossMean l) ^ 2 ≤
      ((l.length : ℚ) - 1) *
        ∑ j : Fin l.length, (l.get j - lossMean l) ^ 2 := by
  have hl : l ≠ [] := by
    intro h
    rw [h] at i
    exact absurd i.2 (by simp)
  have hn1 : 1 ≤ l.length := by
    have := i.2
    omega
  set μ := lossMean l with hμ
  set d : Fin l.length → ℚ := fun j => l.get j - μ with hd
  have hsum : ∑ j, d j = 0 := sum_dev_eq_zero l hl
  have herase : ∑ j ∈ Finset.univ.erase i, d j = - d i := by
    have h := Finset.add_sum_erase Finset.univ d (Finset.mem_univ i)
    rw [hsum] at h
    linarith
  have hCS : (∑ j ∈ Finset.univ.erase i, d j) ^ 2 ≤
      ((Finset.univ.erase i).card : ℚ) *
        ∑ j ∈ Finset.univ.erase i, d j ^ 2 :=
    sq_sum_le_card_mul_sum_sq
  have hcard : ((Finset.univ.erase i).card : ℚ) = (l.length : ℚ) - 1 := by
    rw [Finset.card_erase_of_mem (Finset.mem_univ i), Finset.card_univ,
      Fintype.card_fin, Nat.cast_sub hn1]
    norm_num
  have hsub : ∑ j ∈ Finset.univ.erase i, d j ^ 2 =
      (∑ j, d j ^ 2) - d i ^ 2 := by
    have h := Finset.add_sum_erase Finset.univ (fun j => d j ^ 2)
      (Finset.mem_univ i)
    simp only at h
    linarith
  have key : d i ^ 2 ≤
      ((l.length : ℚ) - 1) * ((∑ j, d j ^ 2) - d i ^ 2) := by
    calc d i ^ 2 = (∑ j ∈ Finset.univ.erase i, d j) ^ 2 := by
          rw [herase]
          ring
      _ ≤ ((Finset.univ.erase i).card : ℚ) *
            ∑ j ∈ Finset.univ.erase i, d j ^ 2 := hCS
      _ = ((l.length : ℚ) - 1) * ((∑ j, d j ^ 2) - d i ^ 2) := by
          rw [hcard, hsub]
  show (l.length : ℚ) * d i ^ 2 ≤ ((l.length : ℚ) - 1) * ∑ j, d j ^ 2
  nlinarith [key]

/-- The population variance is nonnegative. -/
theorem lossVar_nonneg (l : List ℚ) : 0 ≤ lossVar l := by
  unfold lossVar
  apply div_nonneg
  · apply List.sum_nonneg
    intro x hx
    obtain ⟨y, _, rfl⟩ := List.mem_map.mp hx
    positivity
  · positivity

/-- With at most seven samples no individual loss can exceed the `2.5`
z-score threshold: the squared z-score is bounded by `n - 1 ≤ 6 < 6.25`. -/
theorem isZOutlier_false_of_small (l : List ℚ) (h7 : l.length ≤ 7)
    (i : Fin l.length) : isZOutlier l (l.get i) = false := by
  unfold isZOutlier
  rw [decide_eq_false_iff_not, not_lt]
  have hn1 : 1 ≤ l.length := by
    have := i.2
    omega
  have hn : (0 : ℚ) < l.length := by exact_mod_cast hn1
  have key := sq_dev_le l i
  have hvnn := lossVar_nonneg l
  have hS : ∑ j : Fin l.length, (l.get j - lossMean l) ^ 2 =
      (l.length : ℚ) * lossVar l := by
    rw [sum_sq_dev_eq, lossVar]
    field_simp
  rw [hS] at key
  have h7q : (l.length : ℚ) ≤ 7 := by exact_mod_cast h7
  nlinarith [key, hvnn, hn, h7q, mul_nonneg hn.le hvnn,
    mul_nonneg hvnn (sub_nonneg.mpr h7q)]

/-- Unfolding equation for `detect_outliers`. -/
theorem detect_outliers_def (results : List (ClientId × FitRes)) :
    detect_outliers results =
      if (reportedLosses results).length < 2 then []
      else if lossVar (reportedLosses results) = 0 then []
      else (outlierIndices (reportedLosses results)).map
        (fun i => (results.getD i default).1) := rfl

/-! ### Small cohorts are never filtered (C10) -/

/-- C10 counterexample: eight reporting clients suffice — with losses
`[0, 0, 0, 0, 0, 0, 0, 1]` the last client's population z-score is
`sqrt 7 ≈ 2.65 > 2.5` and it is flagged, refuting the claim that up to
eight reporting clients are never filtered. -/
theorem detect_outliers_eight_losses_cex :
    detect_outliers eightLossExample = [7] ∧
    eightLossExample.length = 8 := by
  constructor
  · norm_num [detect_outliers, eightLossExample, reportedLosses, lossVar,
      lossMean, outlierIndices, isZOutlier, List.filterMap, List.filter,
      List.range, List.range.loop]
  · rfl

/-- C10 as amended: for every result list in which at most 7 clients
report a loss, `detect_outliers` returns the empty outlier set, because
the population z-score of `n` values is bounded by `sqrt (n - 1)`,
which is below the threshold `2.5` for every `n ≤ 7`; at least 8
reported losses are required before any client can ever be flagged. -/
theorem detect_outliers_small_cohort (results : List (ClientId × FitRes))
    (h : (reportedLosses results).length ≤ 7) :
    detect_outliers results = [] := by
  rw [detect_outliers_def]
  by_cases h2 : (reportedLosses results).length < 2
  · simp [h2]
  · by_cases h3 : lossVar (reportedLosses results) = 0
    · simp [h2, h3]
    · have hidx : outlierIndices (reportedLosses results) = [] := by
        unfold outlierIndices
        rw [List.filter_eq_nil_iff]
        intro i hi
        rw [List.mem_range] at hi
        have hgd : (reportedLosses results).getD i 0 =
            (reportedLosses results).get ⟨i, hi⟩ :=
          List.getD_eq_getElem _ _ hi
        rw [hgd]
        have hz := isZOutlier_false_of_small (reportedLosses results) h ⟨i, hi⟩
        simpa [List.get_eq_getElem] using hz
      simp [h2, h3, hidx]

/-- Witness for C10 as amended: seven reported losses — even in the most
extreme configuration `[0, 0, 0, 0, 0, 0, 1]` — produce no outliers. -/
theorem detect_outliers_small_cohort_witness :
    detect_outliers
      [(20, ⟨[], 1, ⟨some 0, none⟩⟩), (21, ⟨[], 1, ⟨some 0, none⟩⟩),
       (22, ⟨[], 1, ⟨some 0, none⟩⟩), (23, ⟨[], 1, ⟨some 0, none⟩⟩),
       (24, ⟨[], 1, ⟨some 0, none⟩⟩), (25, ⟨[], 1, ⟨some 0, none⟩⟩),
       (26, ⟨[], 1, ⟨some 1, none⟩⟩)] = [] :=
  detect_outliers_small_cohort _ (by
    norm_num [reportedLosses, List.filterMap])

/-! ### Outlier-detector contract (C5) -/

/-- When every result reports a loss, the collected loss list is the
positionwise projection of the results. -/
theorem reportedLosses_eq_map (results : List (ClientId × FitRes))
    (h : ∀ r ∈ results, (r.2.metrics.loss).isSome = true) :
    reportedLosses results =
      results.map (fun r => (r.2.metrics.loss).getD 0) := by
  induction results with
  | nil => rfl
  | cons a t ih =>
      have ha := h a (List.mem_cons_self a t)
      obtain ⟨x, hx⟩ := Option.isSome_iff_exists.mp ha
      have ht := ih (fun r hr => h r (List.mem_cons_of_mem a hr))
      unfold reportedLosses at ht ⊢
      rw [List.map_cons, List.filterMap_cons, hx, ht]
      rfl

/-- C5 counterexample: on the specification's example losses
`[0.1, 0.12, 0.15, 10.0]` the detector flags nobody — the population
z-score of the `10.0` entry is `sqrt 3 ≈ 1.73`, below the threshold
`2.5` — contradicting the claim that exactly the client with loss
`10.0` is flagged. -/
theorem detect_outliers_spec_example_cex :
    detect_outliers specLossExample = [] ∧
    (3 : ClientId) ∉ detect_outliers specLossExample := by
  have h : detect_outliers specLossExample = [] := by
    norm_num [detect_outliers, specLossExample, reportedLosses, lossVar,
      lossMean, outlierIndices, isZOutlier, List.filterMap, List.filter,
      List.range, List.range.loop]
  exact ⟨h, by rw [h]; exact List.not_mem_nil 3⟩

/-- C5 as amended: when every client reports a loss, `detect_outliers`
flags exactly those clients whose own reported loss has a population
z-score strictly above `2.5` (for at least two losses of nonzero
variance, else nobody); on the spec's example `[0.1, 0.12, 0.15, 10.0]`
it flags none (four samples bound every z-score by `sqrt 3 < 2.5`), on
`[0.5, 0.5, 0.5]` none (zero variance), and on the empty or singleton
list none. -/
theorem detect_outliers_contract :
    (∀ results : List (ClientId × FitRes),
      (∀ r ∈ results, (r.2.metrics.loss).isSome = true) →
      ∀ c : ClientId,
        (c ∈ detect_outliers results ↔
          (2 ≤ results.length ∧
           lossVar (reportedLosses results) ≠ 0 ∧
           ∃ i, ∃ hi : i < results.length,
             (results.get ⟨i, hi⟩).1 = c ∧
             isZOutlier (reportedLosses results)
               (((results.get ⟨i, hi⟩).2.metrics.loss).getD 0) = true))) ∧
    detect_outliers specLossExample = [] ∧
    detect_outliers zeroVarExample = [] ∧
    detect_outliers [] = [] ∧
    detect_outliers singleLossExample = [] := by
  refine ⟨?_, ?_, ?_, rfl, rfl⟩
  · intro results h c
    have hmap := reportedLosses_eq_map results h
    have hlen : (reportedLosses results).length = results.length := by
      rw [hmap, List.length_map]
    have hown : ∀ (i : ℕ) (hi : i < results.length),
        (reportedLosses results).getD i 0 =
          ((results.get ⟨i, hi⟩).2.metrics.loss).getD 0 := by
      intro i hi
      rw [hmap, List.getD_eq_getElem _ _ (by simpa using hi),
        List.getElem_map]
      rfl
    rw [detect_outliers_def]
    by_cases h2 : (reportedLosses results).length < 2
    · have hn2 : ¬ 2 ≤ results.length := by omega
      simp [h2, hn2]
    · by_cases h3 : lossVar (reportedLosses results) = 0
      · simp [h2, h3]
      · have h2le : 2 ≤ results.length := by omega
        simp only [h2, h3, if_false, ite_false]
        rw [List.mem_map]
        constructor
        · rintro ⟨i, hi, rfl⟩
          rw [outlierIndices, List.mem_filter, List.mem_range] at hi
          obtain ⟨hilt, hout⟩ := hi
          have hilt' : i < results.length := by omega
          refine ⟨h2le, h3, i, hilt', ?_, ?_⟩
          · rw [List.getD_eq_getElem _ _ hilt']
            rfl
          · rw [← hown i hilt']
            exact hout
        · rintro ⟨_, _, i, hilt, hc, hout⟩
          refine ⟨i, ?_, ?_⟩
          · rw [outlierIndices, List.mem_filter, List.mem_range]
            exact ⟨by omega, by rw [hown i hilt]; exact hout⟩
          · rw [List.getD_eq_getElem _ _ hilt]
            exact hc
  · norm_num [detect_outliers, specLossExample, reportedLosses, lossVar,
      lossMean, outlierIndices, isZOutlier, List.filterMap, List.filter,
      List.range, List.range.loop]
  · norm_num [detect_outliers, zeroVarExample, reportedLosses, lossVar,
      lossMean, List.filterMap]

/-- Witness for C5 as amended: on eight all-reporting clients with
losses `[0,...,0,1]`, the contract instantiates to flag exactly the
client (identifier `17`) whose own loss has z-score `sqrt 7 > 2.5`. -/
theorem detect_outliers_contract_witness :
    (17 : ClientId) ∈ detect_outliers eightLossExampleB := by
  refine (detect_outliers_contract.1 eightLossExampleB ?_ 17).mpr ?_
  · intro r hr
    simp only [eightLossExampleB, List.mem_cons, List.not_mem_nil,
      or_false] at hr
    rcases hr with h | h | h | h | h | h | h | h <;> subst h <;> rfl
  · refine ⟨by norm_num [eightLossExampleB], ?_,
      7, by norm_num [eightLossExampleB], rfl, ?_⟩
    · norm_num [eightLossExampleB, reportedLosses, lossVar, lossMean,
        List.filterMap]
    · norm_num [eightLossExampleB, reportedLosses, isZOutlier, lossVar,
        lossMean, List.filterMap]

/-! ### Weighted-average aggregation correctness (C1): helper lemmas -/

/-- `getD` through a scalar multiplication of the slots. -/
theorem getD_map_mul (v : List ℚ) (k : ℚ) (p : ℕ) :
    (v.map (fun x => x * k)).getD p 0 = v.getD p 0 * k := by
  by_cases hp : p < v.length
  · rw [List.getD_eq_getElem _ _ (by simpa using hp), List.getElem_map,
      List.getD_eq_getElem _ _ hp]
  · rw [List.getD_eq_default _ _ (by simpa using not_lt.mp hp),
      List.getD_eq_default _ _ (not_lt.mp hp)]
    ring

/-- `getD` through a scalar division of the slots. -/
theorem getD_map_div (v : List ℚ) (k : ℚ) (p : ℕ) :
    (v.map (fun x => x / k)).getD p 0 = v.getD p 0 / k := by
  by_cases hp : p < v.length
  · rw [List.getD_eq_getElem _ _ (by simpa using hp), List.getElem_map,
      List.getD_eq_getElem _ _ hp]
  · rw [List.getD_eq_default _ _ (by simpa using not_lt.mp hp),
      List.getD_eq_default _ _ (not_lt.mp hp)]
    simp

/-- `getD` through a positionwise addition of equally long slot lists. -/
theorem getD_zipWith_add (a b : List ℚ) (h : a.length = b.length) (p : ℕ) :
    (List.zipWith (fun x y => x + y) a b).getD p 0 =
      a.getD p 0 + b.getD p 0 := by
  by_cases hp : p < a.length
  · have hz : p < (List.zipWith (fun x y => x + y) a b).length := by
      rw [List.length_zipWith]
      omega
    rw [List.getD_eq_getElem _ _ hz, List.getElem_zipWith,
      List.getD_eq_getElem _ _ hp, List.getD_eq_getElem _ _ (by omega)]
  · have hb : ¬ p < b.length := by omega
    have hz : (List.zipWith (fun x y => x + y) a b).length ≤ p := by
      rw [List.length_zipWith]
      omega
    rw [List.getD_eq_default _ _ hz,
      List.getD_eq_default _ _ (not_lt.mp hp),
      List.getD_eq_default _ _ (not_lt.mp hb)]
    ring

/-- Equal shapes force equal list lengths. -/
theorem length_eq_of_shape {xs ys : List CKKSVector}
    (h : shape xs = shape ys) : xs.length = ys.length := by
  have := congrArg List.length h
  simpa [shape] using this

/-- Equal shapes force equal slot counts at every tensor index
(`getD` view, trivially true outside the range). -/
theorem values_length_eq_of_shape {xs ys : List CKKSVector}
    (h : shape xs = shape ys) (t : ℕ) :
    (xs.getD t ⟨[]⟩).values.length = (ys.getD t ⟨[]⟩).values.length := by
  have hlen : xs.length = ys.length := length_eq_of_shape h
  by_cases ht : t < xs.length
  · have hgd := congrArg (fun l => l.getD t 0) h
    simp only [shape] at hgd
    rw [List.getD_eq_getElem _ _ (by simpa [List.length_map] using ht),
      List.getElem_map,
      List.getD_eq_getElem _ _ (by simpa [List.length_map] using hlen ▸ ht),
      List.getElem_map] at hgd
    rw [List.getD_eq_getElem _ _ ht, List.getD_eq_getElem _ _ (hlen ▸ ht)]
    exact hgd
  · rw [List.getD_eq_default _ _ (not_lt.mp ht),
      List.getD_eq_default _ _ (by omega)]

/-- Shape is preserved by scaling every tensor. -/
theorem shape_scalarMulList (ts : List CKKSVector) (k : ℚ) :
    shape (ts.map (fun w => w.scalarMul k)) = shape ts := by
  unfold shape CKKSVector.scalarMul
  rw [List.map_map]
  apply List.map_congr_left
  intro w _
  simp

/-- `getD` commutes with mapping a default-preserving function over the
tensor list. -/
theorem getD_map_comm (f : CKKSVector → CKKSVector) (hf : f ⟨[]⟩ = ⟨[]⟩)
    (ts : List CKKSVector) (t : ℕ) :
    (ts.map f).getD t ⟨[]⟩ = f (ts.getD t ⟨[]⟩) := by
  by_cases ht : t < ts.length
  · rw [List.getD_eq_getElem (ts.map f) ⟨[]⟩
        (by simpa [List.length_map] using ht),
      List.getElem_map, List.getD_eq_getElem ts ⟨[]⟩ ht]
  · rw [List.getD_eq_default (ts.map f) ⟨[]⟩
        (by simpa [List.length_map] using not_lt.mp ht),
      List.getD_eq_default ts ⟨[]⟩ (not_lt.mp ht), hf]

/-- `getD` commutes with a positionwise combination of two equally long
tensor lists by a default-preserving operation. -/
theorem getD_zipWith_vec (g : CKKSVector → CKKSVector → CKKSVector)
    (hg : g ⟨[]⟩ ⟨[]⟩ = ⟨[]⟩) (a b : List CKKSVector)
    (h : a.length = b.length) (t : ℕ) :
    (List.zipWith g a b).getD t ⟨[]⟩ =
      g (a.getD t ⟨[]⟩) (b.getD t ⟨[]⟩) := by
  by_cases ht : t < a.length
  · have hz : t < (List.zipWith g a b).length := by
      rw [List.length_zipWith]
      omega
    rw [List.getD_eq_getElem (List.zipWith g a b) ⟨[]⟩ hz,
      List.getElem_zipWith, List.getD_eq_getElem a ⟨[]⟩ ht,
      List.getD_eq_getElem b ⟨[]⟩ (by omega)]
  · rw [List.getD_eq_default (List.zipWith g a b) ⟨[]⟩
        (by rw [List.length_zipWith]; omega),
      List.getD_eq_default a ⟨[]⟩ (not_lt.mp ht),
      List.getD_eq_default b ⟨[]⟩ (by omega), hg]

/-- Entry view of scaling every tensor. -/
theorem entry_scalarMulList (ts : List CKKSVector) (k : ℚ) (t p : ℕ) :
    entry (ts.map (fun w => w.scalarMul k)) t p = entry ts t p * k := by
  unfold entry
  rw [getD_map_comm (fun w => w.scalarMul k) rfl ts t]
  simpa [CKKSVector.scalarMul] using getD_map_mul (ts.getD t ⟨[]⟩).values k p

/-- Shape is preserved by one accumulation step against an update of
the same shape. -/
theorem shape_accStep (acc : List CKKSVector) (r : ClientId × FitRes)
    (hs : shape r.2.tensors = shape acc) :
    shape (accStep acc r) = shape acc := by
  have hlen : r.2.tensors.length = acc.length := length_eq_of_shape hs
  apply List.ext_getElem
  · simp [shape, accStep, List.length_zipWith]
    omega
  · intro t h1 h2
    simp only [shape, accStep, List.getElem_map, List.getElem_zipWith]
    have ht : t < acc.length := by
      simpa [shape] using h2
    have hvals := values_length_eq_of_shape hs t
    rw [List.getD_eq_getElem _ _ (by omega),
      List.getD_eq_getElem _ _ ht] at hvals
    simp [CKKSVector.add, CKKSVector.scalarMul, List.length_zipWith, hvals]

/-- Entry view of one accumulation step. -/
theorem entry_accStep (acc : List CKKSVector) (r : ClientId × FitRes)
    (hs : shape r.2.tensors = shape acc) (t p : ℕ) :
    entry (accStep acc r) t p =
      entry acc t p + entry r.2.tensors t p * (r.2.numExamples : ℚ) := by
  have hlen : r.2.tensors.length = acc.length := length_eq_of_shape hs
  have hvals : (r.2.tensors.getD t ⟨[]⟩).values.length =
      (acc.getD t ⟨[]⟩).values.length := values_length_eq_of_shape hs t
  unfold entry accStep
  rw [getD_zipWith_vec
      (fun a w => a.add (w.scalarMul (r.2.numExamples : ℚ))) rfl
      acc r.2.tensors hlen.symm t]
  show (List.zipWith (fun x y => x + y) (acc.getD t ⟨[]⟩).values
      ((r.2.tensors.getD t ⟨[]⟩).values.map
        (fun x => x * (r.2.numExamples : ℚ)))).getD p 0 = _
  rw [getD_zipWith_add _ _ (by simpa [List.length_map] using hvals.symm) p,
    getD_map_mul]

/-- Shape is preserved by the whole accumulation fold. -/
theorem shape_foldl_accStep (rest : List (ClientId × FitRes))
    (acc : List CKKSVector)
    (h : ∀ r ∈ rest, shape r.2.tensors = shape acc) :
    shape (rest.foldl accStep acc) = shape acc := by
  induction rest generalizing acc with
  | nil => rfl
  | cons r tl ih =>
      have hr := h r (List.mem_cons_self r tl)
      have hstep := shape_accStep acc r hr
      rw [List.foldl_cons,
        ih (accStep acc r)
          (fun q hq => (h q (List.mem_cons_of_mem r hq)).trans hstep.symm),
        hstep]

/-- Entry view of the whole accumulation fold: the accumulator plus the
example-count-scaled entries of all remaining clients. -/
theorem entry_foldl_accStep (rest : List (ClientId × FitRes))
    (acc : List CKKSVector)
    (h : ∀ r ∈ rest, shape r.2.tensors = shape acc) (t p : ℕ) :
    entry (rest.foldl accStep acc) t p =
      entry acc t p +
        (rest.map (fun r =>
          entry r.2.tensors t p * (r.2.numExamples : ℚ))).sum := by
  induction rest generalizing acc with
  | nil => simp
  | cons r tl ih =>
      have hr := h r (List.mem_cons_self r tl)
      have hstep := shape_accStep acc r hr
      rw [List.foldl_cons,
        ih (accStep acc r)
          (fun q hq => (h q (List.mem_cons_of_mem r hq)).trans hstep.symm),
        entry_accStep acc r hr, List.map_cons, List.sum_cons]
      ring

/-- Normal form of "divide every ciphertext by `k`, then decrypt":
a table of entries indexed by tensor and position. -/
theorem map_decrypt_div_eq_rangeMap (ws : List CKKSVector) (k : ℚ) :
    (ws.map (fun w => w.scalarDiv k)).map CKKSVector.decrypt =
      (List.range ws.length).map (fun t =>
        (List.range ((ws.getD t ⟨[]⟩).values.length)).map
          (fun p => entry ws t p / k)) := by
  apply List.ext_getElem
  · simp
  · intro t h1 h2
    have ht : t < ws.length := by simpa using h1
    simp only [List.getElem_map, List.getElem_range]
    apply List.ext_getElem
    · simp [CKKSVector.decrypt, CKKSVector.scalarDiv,
        List.getD_eq_getElem ws ⟨[]⟩ ht, List.getElem?_eq_getElem ht]
    · intro p hp1 hp2
      have hp : p < (ws[t]).values.length := by
        simpa [CKKSVector.decrypt, CKKSVector.scalarDiv] using hp1
      simp only [List.getElem_map, List.getElem_range,
        CKKSVector.decrypt, CKKSVector.scalarDiv]
      unfold entry
      rw [List.getD_eq_getElem ws ⟨[]⟩ ht,
        List.getD_eq_getElem (ws[t]).values 0 hp]

/-- The decrypted, example-total-divided accumulator is exactly the
plaintext weighted mean (positionwise, over the first client's tensor
layout). -/
theorem decrypted_eq_plainWeightedMean (fr : List (ClientId × FitRes))
    (hne : fr ≠ []) (hshape : ∃ s, ∀ r ∈ fr, shape r.2.tensors = s) :
    ((accumulate fr).map
        (fun w => w.scalarDiv (total_examples fr))).map CKKSVector.decrypt =
      plainWeightedMean fr := by
  obtain ⟨s, hs⟩ := hshape
  cases fr with
  | nil => exact absurd rfl hne
  | cons first rest =>
      have hsfirst : shape first.2.tensors = s :=
        hs first (List.mem_cons_self first rest)
      set acc0 := first.2.tensors.map
        (fun w => w.scalarMul (first.2.numExamples : ℚ)) with hacc0def
      have hacc0 : shape acc0 = shape first.2.tensors := by
        rw [hacc0def]
        exact shape_scalarMulList _ _
      have hrest : ∀ r ∈ rest, shape r.2.tensors = shape acc0 :=
        fun r hr => (hs r (List.mem_cons_of_mem first hr)).trans
          (hsfirst.symm.trans hacc0.symm)
      have hshape_acc : shape (accumulate (first :: rest)) =
          shape first.2.tensors := by
        show shape (rest.foldl accStep acc0) = shape first.2.tensors
        rw [shape_foldl_accStep rest acc0 hrest, hacc0]
      have haccent : ∀ t p, entry (accumulate (first :: rest)) t p =
          ((first :: rest).map (fun r =>
            (r.2.numExamples : ℚ) * entry r.2.tensors t p)).sum := by
        intro t p
        show entry (rest.foldl accStep acc0) t p = _
        rw [entry_foldl_accStep rest acc0 hrest t p, hacc0def,
          entry_scalarMulList first.2.tensors (first.2.numExamples : ℚ) t p,
          List.map_cons, List.sum_cons]
        have hflip : rest.map (fun r =>
            entry r.2.tensors t p * (r.2.numExamples : ℚ)) =
            rest.map (fun r =>
              (r.2.numExamples : ℚ) * entry r.2.tensors t p) :=
          List.map_congr_left (fun r _ => mul_comm _ _)
        rw [hflip]
        ring
      rw [map_decrypt_div_eq_rangeMap (accumulate (first :: rest))
        (total_examples (first :: rest) : ℚ)]
      have hT : (accumulate (first :: rest)).length =
          first.2.tensors.length := length_eq_of_shape hshape_acc
      show _ = (List.range first.2.tensors.length).map (fun t =>
        (List.range ((first.2.tensors.getD t ⟨[]⟩).values.length)).map
          (fun p =>
            ((first :: rest).map (fun r =>
              (r.2.numExamples : ℚ) * entry r.2.tensors t p)).sum /
              (total_examples (first :: rest) : ℚ)))
      rw [hT]
      apply List.map_congr_left
      intro t _
      have hP : ((accumulate (first :: rest)).getD t ⟨[]⟩).values.length =
          (first.2.tensors.getD t ⟨[]⟩).values.length :=
        values_length_eq_of_shape hshape_acc t
      rw [hP]
      apply List.map_congr_left
      intro p _
      rw [haccent t p]

/-- Reduction of a successful `aggregate_fit` call to the decrypted,
divided accumulator. -/
theorem agg_params_eq (server_round num_rounds : ℕ)
    (results : List (ClientId × FitRes))
    (hne : filtered_results results ≠ [])
    (htot : total_examples (filtered_results results) ≠ 0) :
    agg_params (aggregate_fit server_round num_rounds results []) =
      some (((accumulate (filtered_results results)).map
          (fun w => w.scalarDiv
            (total_examples (filtered_results results)))).map
        CKKSVector.decrypt) := by
  have hres : results ≠ [] := fun h => hne (by simp [filtered_results, h])
  unfold aggregate_fit agg_params
  simp [hres, hne, htot]

/-- C1: for every non-empty filtered list of client fit results with
positive example total and aligned tensor shapes (and no reported
failures, which would raise in the failure-logging block), the decrypted
aggregate equals, at every tensor position, the example-count-weighted
mean `(sum_i n_i * w_i) / (sum_i n_i)` computed in plaintext
(`plainWeightedMean`, written from the specification's words). -/
theorem aggregate_fit_weighted_mean (server_round num_rounds : ℕ)
    (results : List (ClientId × FitRes))
    (hne : filtered_results results ≠ [])
    (hshape : ∃ s, ∀ r ∈ filtered_results results, shape r.2.tensors = s)
    (htot : total_examples (filtered_results results) ≠ 0) :
    agg_params (aggregate_fit server_round num_rounds results []) =
      some (plainWeightedMean (filtered_results results)) := by
  rw [agg_params_eq server_round num_rounds results hne htot]
  congr 1
  exact decrypted_eq_plainWeightedMean (filtered_results results) hne hshape

/-- Witness for C1: two clients with example counts `1` and `3` and
updates `[[1,2],[3]]` and `[[5,6],[7]]` aggregate and decrypt to the
weighted mean `[[4,5],[6]]`. -/
theorem aggregate_fit_weighted_mean_witness :
    agg_params (aggregate_fit 1 3 twoClientExample []) =
      some [[4, 5], [6]] := by
  have hfull : filtered_results twoClientExample = twoClientExample := by
    refine filtered_results_of_no_losses _ ?_
    intro r hr
    simp only [twoClientExample, List.mem_cons, List.not_mem_nil,
      or_false] at hr
    rcases hr with h | h <;> subst h <;> rfl
  have hne : filtered_results twoClientExample ≠ [] := by
    rw [hfull]
    intro h
    cases h
  have hshape : ∃ s, ∀ r ∈ filtered_results twoClientExample,
      shape r.2.tensors = s := by
    rw [hfull]
    refine ⟨[2, 1], ?_⟩
    intro r hr
    simp only [twoClientExample, List.mem_cons, List.not_mem_nil,
      or_false] at hr
    rcases hr with h | h <;> subst h <;> rfl
  have htot : total_examples (filtered_results twoClientExample) ≠ 0 := by
    rw [hfull]
    intro h
    cases h
  rw [aggregate_fit_weighted_mean 1 3 twoClientExample hne hshape htot,
    hfull]
  norm_num [plainWeightedMean, twoClientExample, total_examples, entry,
    List.range, List.range.loop]
